import Mathlib

/-!
Shallow embedding of the SmartSwitch turn-off-when-idle algorithm from
src/fritzbox_exploration_01--turn_off_when_idle.ipynb.

Timestamps and power values are modelled as rationals (the source works
with datetime timestamps and Python floats; all constants appearing in
the algorithm are decimal literals, represented exactly here).  Remote
interaction is modelled by an environment: a stream of power records
(one per get_latest_power_record call, indexed by call number) and the
initial switch state.  The observable effects of a run are the number of
fetches performed and the list of switch commands issued.
-/

namespace Fritzbox

/-- A state-changing command sent to the remote device: set_switch(b). -/
inductive Command where
  | setSwitch (state : Bool)
deriving DecidableEq, Repr

/-- One power record as returned by get_latest_power_record: measured
power, device-reported record time, and the local request and response
timestamps. -/
structure PowerRecord where
  power : ℚ
  record_time : ℚ
  request_time : ℚ
  response_time : ℚ
deriving DecidableEq, Repr

/-- duration = response_time - request_time, as computed in
get_latest_power_record. -/
def PowerRecord.duration (r : PowerRecord) : ℚ :=
  r.response_time - r.request_time

/-- latency = response_time - record_time, as computed in
get_latest_power_record. -/
def PowerRecord.latency (r : PowerRecord) : ℚ :=
  r.response_time - r.record_time

/-- SmartSwitch.turn_off_if_idle: compares the power value of the record
against the idle threshold, checks 0 < latency < allowed_latency, and if
both hold issues set_switch(False) and returns False (the new switch
state); otherwise returns True and issues nothing.  The returned pair is
(returned boolean, commands issued). -/
def turn_off_if_idle (idle_threshold : ℚ) (r : PowerRecord)
    (allowed_latency : ℚ) : Bool × List Command :=
  let device_idle := r.power < idle_threshold
  let latency_ok := 0 < r.latency ∧ r.latency < allowed_latency
  if device_idle ∧ latency_ok then
    (false, [Command.setSwitch false])
  else
    (true, [])

/-- Loop of SmartSwitch.get_reliable_power_record: starting from fetch
index i, keep fetching while the record time equals the first fetched
record time init_time; stop at the first differing record.  Returns the
total number of fetches performed (indices 0 .. i are consumed when the
check at index i succeeds) and the final record; none when the fuel runs
out before a differing record time is seen (the source loop would still
be running). -/
def grpr_loop (fetches : ℕ → PowerRecord) (init_time : ℚ) :
    ℕ → ℕ → ℕ × Option PowerRecord
  | 0, i => (i, none)
  | fuel + 1, i =>
      if (fetches i).record_time = init_time then
        grpr_loop fetches init_time fuel (i + 1)
      else
        (i + 1, some (fetches i))

/-- SmartSwitch.get_reliable_power_record: fetch once (index 0, giving
init_time), fetch again right away (index 1), and while the latest
record time equals init_time wait and fetch again.  Result: (number of
fetches performed, record returned). -/
def get_reliable_power_record (fetches : ℕ → PowerRecord) (fuel : ℕ) :
    ℕ × Option PowerRecord :=
  grpr_loop fetches (fetches 0).record_time fuel 1

/-- Loop of SmartSwitch.get_next_power_record: starting from
exec_time = base_time, add cycle seconds while exec_time is before the
current time; none when the fuel runs out (non-terminating loop, e.g.
cycle = 0 with base_time in the past). -/
def gnpr_loop (now cycle : ℚ) : ℕ → ℚ → Option ℚ
  | 0, _ => none
  | fuel + 1, exec_time =>
      if exec_time < now then
        gnpr_loop now cycle fuel (exec_time + cycle)
      else
        some exec_time

/-- SmartSwitch.get_next_power_record: compute the next wake instant on
the base_time-anchored cycle, sleep until it, and fetch a record then.
The fetch is modelled by the environment function fetch_at giving the
record obtained when fetching at a given instant.  Returns the wake
instant together with the fetched record. -/
def get_next_power_record (fetch_at : ℚ → PowerRecord)
    (base_time now cycle : ℚ) (fuel : ℕ) : Option (ℚ × PowerRecord) :=
  (gnpr_loop now cycle fuel base_time).map (fun t => (t, fetch_at t))

/-- The mutable synchronization parameters of the
turn_off_when_idle detection loop: offset, lower_bound, increment. -/
structure SyncState where
  offset : ℚ
  lower_bound : ℚ
  increment : ℚ
deriving DecidableEq, Repr

/-- Initial parameter values set before the detection loop:
offset = 0, lower_bound = -1, increment = 1/4. -/
def initState : SyncState :=
  { offset := 0, lower_bound := -1, increment := 1 / 4 }

/-- precision_is_low = increment > 10 ** (-cycle_detection_precision),
evaluated once before the detection loop with increment = 1/4. -/
def precision_is_low (cycle_detection_precision : ℤ) : Bool :=
  decide ((1 / 4 : ℚ) > 10 ^ (-cycle_detection_precision))

/-- One latency-band parameter adjustment of the turn_off_when_idle
detection loop.  pil is the precision_is_low flag, which the source
computes once before the loop and never updates. -/
def adjust_params (pil : Bool) (latency : ℚ) (s : SyncState) : SyncState :=
  if 9 < latency ∧ latency < 12.5 then
    { s with lower_bound := max s.offset s.lower_bound,
             offset := s.offset + s.increment }
  else if 0 < latency ∧ latency < 2.5 then
    let precision_can_be_increased := s.offset - s.increment = s.lower_bound
    let increment :=
      if pil ∧ precision_can_be_increased then s.increment / 2
      else s.increment
    { s with increment := increment, offset := s.offset - increment }
  else
    { s with offset := 0 }

/-- The synchronization-parameter trajectory of a detection-loop run:
fold adjust_params over the sequence of observed latencies. -/
def run_loop (pil : Bool) (s : SyncState) : List ℚ → SyncState
  | [] => s
  | l :: ls => run_loop pil (adjust_params pil l s) ls

/-- Result of the detection loop: index of the next unconsumed fetch,
commands issued, and whether the switch was turned off (false also when
the fuel ran out with the loop still going). -/
structure LoopResult where
  nextIndex : ℕ
  commands : List Command
  turnedOff : Bool
deriving DecidableEq, Repr

/-- The detection loop of SmartSwitch.turn_off_when_idle: fetch the next
record, run turn_off_if_idle on it, and while the switch stays on adjust
the parameters from the observed latency and re-anchor base_time to
record_time + offset.  Record arrival is modelled by the fetch stream
(the wake-time computation, modelled by get_next_power_record, selects
when the fetch happens but not which record the device serves). -/
def tow_loop (fetches : ℕ → PowerRecord) (idle_threshold allowed_latency : ℚ)
    (pil : Bool) : ℕ → ℕ → ℚ → SyncState → LoopResult
  | 0, i, _, _ => { nextIndex := i, commands := [], turnedOff := false }
  | fuel + 1, i, _, s =>
      let r := fetches i
      let gate := turn_off_if_idle idle_threshold r allowed_latency
      if gate.1 then
        let s1 := adjust_params pil r.latency s
        let rest := tow_loop fetches idle_threshold allowed_latency pil
          fuel (i + 1) (r.record_time + s1.offset) s1
        { rest with commands := gate.2 ++ rest.commands }
      else
        { nextIndex := i + 1, commands := gate.2, turnedOff := true }

/-- Observable outcome of one turn_off_when_idle invocation. -/
structure RunResult where
  fetchCount : ℕ
  commands : List Command
  completed : Bool
deriving DecidableEq, Repr

/-- SmartSwitch.turn_off_when_idle: if the switch is already off, return
at once; otherwise bootstrap a reliable record, run the fast-path idle
check with allowed latency 0.5, and if the switch is still on run the
detection loop with the configured allowed latency, starting from
offset 0, lower_bound -1, increment 1/4 and the precision_is_low flag
evaluated once.  completed is false when a fuel bound cut the run short
(the source loop would still be running). -/
def turn_off_when_idle (switch_is_on : Bool) (fetches : ℕ → PowerRecord)
    (idle_threshold allowed_latency : ℚ) (cycle_detection_precision : ℤ)
    (fuel_boot fuel_loop : ℕ) : RunResult :=
  if switch_is_on then
    match get_reliable_power_record fetches fuel_boot with
    | (n, none) => { fetchCount := n, commands := [], completed := false }
    | (n, some r) =>
        let gate := turn_off_if_idle idle_threshold r 0.5
        if gate.1 then
          let res := tow_loop fetches idle_threshold allowed_latency
            (precision_is_low cycle_detection_precision) fuel_loop n
            r.record_time initState
          { fetchCount := res.nextIndex, commands := gate.2 ++ res.commands,
            completed := res.turnedOff }
        else
          { fetchCount := n, commands := gate.2, completed := true }
  else
    { fetchCount := 0, commands := [], completed := true }

/-! ## Helper lemmas -/

/-- The idle gate as a single conditional. -/
theorem turn_off_if_idle_eq (idle_threshold allowed_latency : ℚ)
    (r : PowerRecord) :
    turn_off_if_idle idle_threshold r allowed_latency =
      if r.power < idle_threshold ∧ 0 < r.latency ∧ r.latency < allowed_latency
      then (false, [Command.setSwitch false])
      else (true, []) := by
  simp [turn_off_if_idle]

theorem turn_off_if_idle_snd_of_fst_true (idle_threshold allowed_latency : ℚ)
    (r : PowerRecord)
    (h : (turn_off_if_idle idle_threshold r allowed_latency).1 = true) :
    (turn_off_if_idle idle_threshold r allowed_latency).2 = [] := by
  rw [turn_off_if_idle_eq] at h ⊢
  split_ifs at h ⊢
  simp_all

theorem turn_off_if_idle_snd_of_fst_false (idle_threshold allowed_latency : ℚ)
    (r : PowerRecord)
    (h : (turn_off_if_idle idle_threshold r allowed_latency).1 = false) :
    (turn_off_if_idle idle_threshold r allowed_latency).2 =
      [Command.setSwitch false] := by
  rw [turn_off_if_idle_eq] at h ⊢
  split_ifs at h ⊢
  simp_all

/-- lower_bound never decreases in one parameter adjustment. -/
theorem adjust_params_lower_bound_mono (pil : Bool) (l : ℚ) (s : SyncState) :
    s.lower_bound ≤ (adjust_params pil l s).lower_bound := by
  simp only [adjust_params]
  split_ifs <;> simp [le_max_right]

/-- increment stays positive and never increases in one parameter
adjustment. -/
theorem adjust_params_increment_mono (pil : Bool) (l : ℚ) (s : SyncState)
    (h : 0 < s.increment) :
    0 < (adjust_params pil l s).increment ∧
      (adjust_params pil l s).increment ≤ s.increment := by
  simp only [adjust_params]
  split_ifs <;> constructor <;> simp <;> linarith

/-- run_loop splits along list concatenation. -/
theorem run_loop_append (pil : Bool) (l₁ l₂ : List ℚ) (s : SyncState) :
    run_loop pil s (l₁ ++ l₂) = run_loop pil (run_loop pil s l₁) l₂ := by
  induction l₁ generalizing s with
  | nil => rfl
  | cons a t ih => simp [run_loop, ih]

/-- lower_bound never decreases along any latency sequence. -/
theorem run_loop_lower_bound_mono (pil : Bool) (ls : List ℚ) (s : SyncState) :
    s.lower_bound ≤ (run_loop pil s ls).lower_bound := by
  induction ls generalizing s with
  | nil => exact le_refl _
  | cons a t ih =>
      exact le_trans (adjust_params_lower_bound_mono pil a s)
        (ih (adjust_params pil a s))

/-- increment stays positive and never increases along any latency
sequence. -/
theorem run_loop_increment_mono (pil : Bool) (ls : List ℚ) (s : SyncState)
    (h : 0 < s.increment) :
    0 < (run_loop pil s ls).increment ∧
      (run_loop pil s ls).increment ≤ s.increment := by
  induction ls generalizing s with
  | nil => exact ⟨h, le_refl _⟩
  | cons a t ih =>
      obtain ⟨h1, h2⟩ := adjust_params_increment_mono pil a s h
      obtain ⟨h3, h4⟩ := ih (adjust_params pil a s) h1
      exact ⟨h3, le_trans h4 h2⟩

/-- Invariant of the bootstrap loop: a successful result at fuelled
start index i returns the first record from index i onward whose record
time differs from init_time, consuming every index before it. -/
theorem grpr_loop_spec (fetches : ℕ → PowerRecord) (init_time : ℚ) :
    ∀ fuel i n r, grpr_loop fetches init_time fuel i = (n, some r) →
      i + 1 ≤ n ∧ r = fetches (n - 1) ∧ r.record_time ≠ init_time ∧
        ∀ j, i ≤ j → j < n - 1 → (fetches j).record_time = init_time := by
  intro fuel
  induction fuel with
  | zero => intro i n r h; simp [grpr_loop] at h
  | succ fuel ih =>
      intro i n r h
      rw [grpr_loop] at h
      split_ifs at h with heq
      · obtain ⟨h1, h2, h3, h4⟩ := ih (i + 1) n r h
        refine ⟨by omega, h2, h3, ?_⟩
        intro j hij hjn
        rcases Nat.eq_or_lt_of_le hij with hji | hji
        · rwa [hji] at heq
        · exact h4 j hji hjn
      · obtain ⟨hn, hr⟩ := Prod.mk.injEq .. ▸ h
        have hn' : n = i + 1 := hn.symm
        have hr' : r = fetches i := (Option.some.injEq .. ▸ hr).symm
        subst hn'
        refine ⟨le_refl _, by simpa using hr', by rwa [hr'], ?_⟩
        intro j hij hjn
        omega

/-- Invariant of the wake-time loop: with a positive cycle length, a
successful result is the least instant of the form
exec_time + k * cycle, k a natural number, that is not before now. -/
theorem gnpr_loop_spec (now cycle : ℚ) (hc : 0 < cycle) :
    ∀ fuel exec_time t, gnpr_loop now cycle fuel exec_time = some t →
      now ≤ t ∧ (∃ k : ℕ, t = exec_time + k * cycle) ∧
        (∀ k : ℕ, now ≤ exec_time + k * cycle → t ≤ exec_time + k * cycle) ∧
        (now ≤ exec_time → t = exec_time) := by
  intro fuel
  induction fuel with
  | zero => intro e t h; simp [gnpr_loop] at h
  | succ fuel ih =>
      intro e t h
      rw [gnpr_loop] at h
      split_ifs at h with hlt
      · obtain ⟨h1, ⟨k, hk⟩, h3, _⟩ := ih (e + cycle) t h
        refine ⟨h1, ⟨k + 1, by push_cast [hk]; ring⟩, ?_, ?_⟩
        · intro m hm
          rcases m with _ | m
          · exfalso
            simp at hm
            linarith
          · have : now ≤ e + cycle + m * cycle := by push_cast at hm ⊢; linarith
            have := h3 m this
            push_cast at this ⊢
            linarith
        · intro hle
          exfalso
          linarith
      · have ht : t = e := by simpa using h.symm
        push_neg at hlt
        subst ht
        refine ⟨hlt, ⟨0, by ring⟩, ?_, fun _ => rfl⟩
        intro m _
        have : (0 : ℚ) ≤ m * cycle :=
          mul_nonneg (by positivity) (le_of_lt hc)
        linarith

/-- The detection loop issues either no command (and the switch was not
turned off) or exactly one set_switch(False) command (and the iteration
that issued it ended the loop). -/
theorem tow_loop_commands (fetches : ℕ → PowerRecord)
    (idle_threshold allowed_latency : ℚ) (pil : Bool) :
    ∀ fuel i bt s,
      ((tow_loop fetches idle_threshold allowed_latency pil fuel i bt s).commands
          = [] ∧
        (tow_loop fetches idle_threshold allowed_latency pil fuel i bt s).turnedOff
          = false) ∨
      ((tow_loop fetches idle_threshold allowed_latency pil fuel i bt s).commands
          = [Command.setSwitch false] ∧
        (tow_loop fetches idle_threshold allowed_latency pil fuel i bt s).turnedOff
          = true) := by
  intro fuel
  induction fuel with
  | zero => intro i bt s; left; exact ⟨rfl, rfl⟩
  | succ fuel ih =>
      intro i bt s
      rw [tow_loop]
      rcases hg : (turn_off_if_idle idle_threshold (fetches i) allowed_latency).1
        with _ | _
      · simp only [hg, Bool.false_eq_true, if_false]
        right
        exact ⟨turn_off_if_idle_snd_of_fst_false _ _ _ hg, by trivial⟩
      · simp only [hg, if_true]
        rw [turn_off_if_idle_snd_of_fst_true _ _ _ hg]
        simp only [List.nil_append]
        exact ih (i + 1) _ _

/-! ## Claim theorems -/

/-- Claim C1, counterexample: at a record with power 3 (below the
threshold 5) and latency 1 (inside (0, 5/2)), turn_off_if_idle issues
the set-output-off command but returns false, not true as the claim
states: the claimed iff between a true return and the idle condition
fails.  The source returns the final switch state, so False signals the
switch is now off. -/
theorem c1_gate_counterexample :
    ((3 : ℚ) < 5 ∧ 0 < (⟨3, 0, 0, 1⟩ : PowerRecord).latency ∧
      (⟨3, 0, 0, 1⟩ : PowerRecord).latency < 5 / 2) ∧
    (turn_off_if_idle 5 ⟨3, 0, 0, 1⟩ (5 / 2)).1 = false ∧
    (turn_off_if_idle 5 ⟨3, 0, 0, 1⟩ (5 / 2)).2 = [Command.setSwitch false] := by
  rw [turn_off_if_idle_eq]
  norm_num [PowerRecord.latency]

/-- Claim C1, amended: for every record, threshold and allowed latency,
turn_off_if_idle returns FALSE (reporting the switch as now off) and
issues the set-output-off command iff value < idleThreshold and
0 < latency < allowedLatency; in every other case it returns true and
issues no command. -/
theorem c1_idle_gate_contract (idle_threshold allowed_latency : ℚ)
    (r : PowerRecord) :
    (((turn_off_if_idle idle_threshold r allowed_latency).1 = false ∧
        (turn_off_if_idle idle_threshold r allowed_latency).2 =
          [Command.setSwitch false]) ↔
      (r.power < idle_threshold ∧ 0 < r.latency ∧
        r.latency < allowed_latency)) ∧
    (((turn_off_if_idle idle_threshold r allowed_latency).1 = true ∧
        (turn_off_if_idle idle_threshold r allowed_latency).2 = []) ↔
      ¬(r.power < idle_threshold ∧ 0 < r.latency ∧
        r.latency < allowed_latency)) := by
  rw [turn_off_if_idle_eq]
  split_ifs with h <;> simp [h]

/-- Claim C4: in every iteration whose latency lies in the too-early
band (9, 12.5), lower_bound becomes max(lower_bound, offset), offset
grows by exactly the current increment, and increment is unchanged. -/
theorem c4_too_early_band (pil : Bool) (l : ℚ) (s : SyncState)
    (h : 9 < l ∧ l < 12.5) :
    adjust_params pil l s =
      { offset := s.offset + s.increment,
        lower_bound := max s.lower_bound s.offset,
        increment := s.increment } := by
  simp only [adjust_params, if_pos h]
  rw [max_comm]

/-- Claim C4, witness at the latency 10.82 of end-to-end scenario 3. -/
theorem c4_too_early_witness :
    adjust_params true 10.82 initState =
      { offset := initState.offset + initState.increment,
        lower_bound := max initState.lower_bound initState.offset,
        increment := initState.increment } :=
  c4_too_early_band true 10.82 initState (by norm_num)

/-- Claim C5: along every run of the detection loop the lower_bound
component never decreases: its value after any further iterations is at
least its value at any earlier point of the run. -/
theorem c5_lower_bound_monotone (pil : Bool) (ls more : List ℚ) :
    (run_loop pil initState ls).lower_bound ≤
      (run_loop pil initState (ls ++ more)).lower_bound := by
  rw [run_loop_append]
  exact run_loop_lower_bound_mono pil more _

/-- Claim C8: when the switch is already reported off,
turn_off_when_idle performs no fetch, issues no command, and returns
immediately (completed, zero fetches, empty command list). -/
theorem c8_already_off (fetches : ℕ → PowerRecord)
    (idle_threshold allowed_latency : ℚ) (cycle_detection_precision : ℤ)
    (fuel_boot fuel_loop : ℕ) :
    turn_off_when_idle false fetches idle_threshold allowed_latency
        cycle_detection_precision fuel_boot fuel_loop =
      { fetchCount := 0, commands := [], completed := true } := by
  simp [turn_off_when_idle]

/-- Claim C7: in every iteration whose latency is neither in (9, 12.5)
nor in (0, 2.5), the adjustment resets offset to exactly 0 while leaving
the other parameters unchanged, and when the idle gate left the switch
on the loop proceeds to the next iteration with that state rather than
aborting. -/
theorem c7_anomalous_band (fetches : ℕ → PowerRecord)
    (idle_threshold allowed_latency : ℚ) (pil : Bool) (s : SyncState)
    (fuel i : ℕ) (bt : ℚ)
    (hband : ¬(9 < (fetches i).latency ∧ (fetches i).latency < 12.5) ∧
      ¬(0 < (fetches i).latency ∧ (fetches i).latency < 2.5))
    (hgate :
      (turn_off_if_idle idle_threshold (fetches i) allowed_latency).1 = true) :
    adjust_params pil (fetches i).latency s = { s with offset := 0 } ∧
    tow_loop fetches idle_threshold allowed_latency pil (fuel + 1) i bt s =
      tow_loop fetches idle_threshold allowed_latency pil fuel (i + 1)
        ((fetches i).record_time + (0 : ℚ)) { s with offset := 0 } := by
  have hadj : adjust_params pil (fetches i).latency s =
      { s with offset := 0 } := by
    simp only [adjust_params]
    rw [if_neg hband.1, if_neg hband.2]
  refine ⟨hadj, ?_⟩
  rw [tow_loop]
  simp only [hgate, if_true, turn_off_if_idle_snd_of_fst_true _ _ _ hgate,
    List.nil_append, hadj]

/-- Claim C9: increment starts at 1/4, stays positive and never
increases over a run (each adjustment keeps it or halves it), and an
anomalous-band iteration changes only offset, leaving increment and
lower_bound untouched. -/
theorem c9_increment_invariant (pil : Bool) (ls more : List ℚ)
    (lAcc lAnom : ℚ) (sAcc sAnom : SyncState)
    (hband : ¬(9 < lAnom ∧ lAnom < 12.5) ∧ ¬(0 < lAnom ∧ lAnom < 2.5)) :
    initState.increment = 1 / 4 ∧
    0 < (run_loop pil initState ls).increment ∧
    (run_loop pil initState (ls ++ more)).increment ≤
      (run_loop pil initState ls).increment ∧
    ((adjust_params pil lAcc sAcc).increment = sAcc.increment ∨
      (adjust_params pil lAcc sAcc).increment = sAcc.increment / 2) ∧
    adjust_params pil lAnom sAnom = { sAnom with offset := 0 } := by
  have hpos : (0 : ℚ) < initState.increment := by norm_num [initState]
  refine ⟨rfl, (run_loop_increment_mono pil ls initState hpos).1, ?_, ?_, ?_⟩
  · rw [run_loop_append]
    exact (run_loop_increment_mono pil more _
      (run_loop_increment_mono pil ls initState hpos).1).2
  · simp only [adjust_params]
    split_ifs <;> simp
  · simp only [adjust_params]
    rw [if_neg hband.1, if_neg hband.2]

/-- Claim C7, witness: a record with power 100 and latency 5 (anomalous
band, switch stays on) at the first loop iteration. -/
theorem c7_anomalous_witness :
    adjust_params true ((fun _ : ℕ => (⟨100, 0, 0, 5⟩ : PowerRecord)) 0).latency
        initState = { initState with offset := 0 } ∧
    tow_loop (fun _ : ℕ => (⟨100, 0, 0, 5⟩ : PowerRecord)) 5 1 true (0 + 1) 0 0
        initState =
      tow_loop (fun _ : ℕ => (⟨100, 0, 0, 5⟩ : PowerRecord)) 5 1 true 0 (0 + 1)
        (((fun _ : ℕ => (⟨100, 0, 0, 5⟩ : PowerRecord)) 0).record_time + (0 : ℚ))
        { initState with offset := 0 } :=
  c7_anomalous_band (fun _ : ℕ => (⟨100, 0, 0, 5⟩ : PowerRecord)) 5 1 true
    initState 0 0 0
    (by norm_num [PowerRecord.latency])
    (by rw [turn_off_if_idle_eq]; norm_num)

/-- Claim C9, witness: the invariant conjunction instantiated at the
latency trace [10] extended by [1], an acceptable-band adjustment at
latency 1, and an anomalous-band adjustment at latency 5. -/
theorem c9_increment_witness :
    initState.increment = 1 / 4 ∧
    0 < (run_loop true initState [10]).increment ∧
    (run_loop true initState ([10] ++ [1])).increment ≤
      (run_loop true initState [10]).increment ∧
    ((adjust_params true 1 initState).increment = initState.increment ∨
      (adjust_params true 1 initState).increment = initState.increment / 2) ∧
    adjust_params true 5 initState = { initState with offset := 0 } :=
  c9_increment_invariant true [10] [1] 1 5 initState initState (by norm_num)

/-- Claim C2, counterexample: with precision 2 (floor 10^-2 = 1/100),
after the latency trace [10, 1, 1, 1, 1, 1] the increment is 1/128,
already below the floor, and one further acceptable-band iteration
halves it again to 1/256: the code halves the increment even when its
current value does not exceed the configured floor, because
precision_is_low is evaluated once before the loop, so the increment
does go below the floor. -/
theorem c2_floor_counterexample :
    precision_is_low 2 = true ∧
    (run_loop (precision_is_low 2) initState
        [10, 1, 1, 1, 1, 1]).increment = 1 / 128 ∧
    (1 / 128 : ℚ) < 10 ^ (-(2 : ℤ)) ∧
    (run_loop (precision_is_low 2) initState
        [10, 1, 1, 1, 1, 1, 1]).increment = 1 / 256 := by
  have hp : precision_is_low 2 = true := by
    simp only [precision_is_low, decide_eq_true_eq]
    norm_num
  refine ⟨hp, ?_, by norm_num, ?_⟩ <;>
    · rw [hp]
      norm_num [run_loop, adjust_params, initState]

/-- Claim C2, amended: an iteration halves increment exactly when its
latency lies in the acceptable band (0, 2.5), offset - increment equals
lower_bound, and the precision_is_low flag holds, where that flag is
computed once before the loop as 1/4 > 10^(-precision) and never
re-evaluated; consequently increment is not floored at 10^(-precision)
and can drop below it (witnessed at precision 2 by the latency trace
[10, 1, 1, 1, 1, 1]). -/
theorem c2_halving_guard (pil : Bool) (l : ℚ) (s : SyncState) :
    (adjust_params pil l s).increment =
      (if (0 < l ∧ l < 2.5) ∧ pil = true ∧
          s.offset - s.increment = s.lower_bound
       then s.increment / 2 else s.increment) ∧
    (run_loop (precision_is_low 2) initState
        [10, 1, 1, 1, 1, 1]).increment < 10 ^ (-(2 : ℤ)) := by
  constructor
  · simp only [adjust_params]
    split_ifs <;> simp_all
    linarith
  · have hp : precision_is_low 2 = true := by
      simp only [precision_is_low, decide_eq_true_eq]
      norm_num
    rw [hp]
    norm_num [run_loop, adjust_params, initState]

/-- Claim C3: whenever get_reliable_power_record returns (after n
fetches, n at least 2, giving the record of the last fetch), every fetch
before the last one reported the same record time as the first fetch, so
the returned record differs in record time from the immediately
preceding fetch; and if the first two fetches agree while the third
differs, then exactly three fetches happen and the third record is
returned. -/
theorem c3_bootstrap_return (fetches : ℕ → PowerRecord) (fuel n : ℕ)
    (r : PowerRecord)
    (h : get_reliable_power_record fetches fuel = (n, some r)) :
    2 ≤ n ∧ r = fetches (n - 1) ∧
    (∀ j, j < n - 1 → (fetches j).record_time = (fetches 0).record_time) ∧
    r.record_time ≠ (fetches (n - 2)).record_time ∧
    ((fetches 1).record_time = (fetches 0).record_time →
      (fetches 2).record_time ≠ (fetches 0).record_time →
      n = 3 ∧ r = fetches 2) := by
  obtain ⟨h1, h2, h3, h4⟩ :=
    grpr_loop_spec fetches (fetches 0).record_time fuel 1 n r h
  have hall : ∀ j, j < n - 1 →
      (fetches j).record_time = (fetches 0).record_time := by
    intro j hj
    rcases Nat.eq_zero_or_pos j with rfl | hpos
    · rfl
    · exact h4 j hpos hj
  have hprev : (fetches (n - 2)).record_time = (fetches 0).record_time := by
    apply hall
    omega
  refine ⟨h1, h2, hall, by rw [hprev]; exact h3, ?_⟩
  intro ha hb
  have hcase : n = 2 ∨ n = 3 ∨ 4 ≤ n := by omega
  rcases hcase with hn | hn | hn
  · exfalso
    apply h3
    rw [h2, hn] at *
    simpa using ha
  · exact ⟨hn, by rw [h2, hn]⟩
  · exfalso
    exact hb (hall 2 (by omega))

/-- Claim C3, witness: a fetch stream reporting record time 0 on the
first two fetches and 7 afterwards makes the acquirer stop after exactly
3 fetches and return the third record. -/
theorem c3_bootstrap_witness :
    2 ≤ 3 ∧ (⟨1, 7, 0, 0⟩ : PowerRecord) =
      (fun i : ℕ => (⟨1, if i < 2 then 0 else 7, 0, 0⟩ : PowerRecord)) (3 - 1) ∧
    (∀ j, j < 3 - 1 →
      ((fun i : ℕ => (⟨1, if i < 2 then 0 else 7, 0, 0⟩ : PowerRecord)) j).record_time =
        ((fun i : ℕ => (⟨1, if i < 2 then 0 else 7, 0, 0⟩ : PowerRecord)) 0).record_time) ∧
    (⟨1, 7, 0, 0⟩ : PowerRecord).record_time ≠
      ((fun i : ℕ => (⟨1, if i < 2 then 0 else 7, 0, 0⟩ : PowerRecord)) (3 - 2)).record_time ∧
    (((fun i : ℕ => (⟨1, if i < 2 then 0 else 7, 0, 0⟩ : PowerRecord)) 1).record_time =
        ((fun i : ℕ => (⟨1, if i < 2 then 0 else 7, 0, 0⟩ : PowerRecord)) 0).record_time →
      ((fun i : ℕ => (⟨1, if i < 2 then 0 else 7, 0, 0⟩ : PowerRecord)) 2).record_time ≠
        ((fun i : ℕ => (⟨1, if i < 2 then 0 else 7, 0, 0⟩ : PowerRecord)) 0).record_time →
      3 = 3 ∧ (⟨1, 7, 0, 0⟩ : PowerRecord) =
        (fun i : ℕ => (⟨1, if i < 2 then 0 else 7, 0, 0⟩ : PowerRecord)) 2) :=
  c3_bootstrap_return
    (fun i : ℕ => (⟨1, if i < 2 then 0 else 7, 0, 0⟩ : PowerRecord)) 5 3
    ⟨1, 7, 0, 0⟩ (by simp [get_reliable_power_record, grpr_loop])

/-- Claim C6: with a positive cycle length, whenever
get_next_power_record completes it wakes at, and fetches at, the least
instant base_time + k * cycle (k a natural number) that is not before
the current time; in particular a future base_time is itself the wake
instant. -/
theorem c6_wake_time (fetch_at : ℚ → PowerRecord)
    (base_time now cycle : ℚ) (fuel : ℕ) (t : ℚ) (r : PowerRecord)
    (hc : 0 < cycle)
    (h : get_next_power_record fetch_at base_time now cycle fuel =
      some (t, r)) :
    now ≤ t ∧ (∃ k : ℕ, t = base_time + k * cycle) ∧
    (∀ k : ℕ, now ≤ base_time + k * cycle → t ≤ base_time + k * cycle) ∧
    (now ≤ base_time → t = base_time) ∧ r = fetch_at t := by
  unfold get_next_power_record at h
  rcases hg : gnpr_loop now cycle fuel base_time with _ | t'
  · rw [hg] at h
    simp at h
  · rw [hg] at h
    simp only [Option.map, Option.some.injEq, Prod.mk.injEq] at h
    obtain ⟨ht, hr⟩ := h
    subst ht
    obtain ⟨h1, h2, h3, h4⟩ := gnpr_loop_spec now cycle hc fuel base_time t' hg
    exact ⟨h1, h2, h3, h4, hr.symm⟩

/-- Claim C6, witness: base time 5 in the future of current time 3 with
cycle 10 wakes at instant 5 itself. -/
theorem c6_wake_time_witness :
    (3 : ℚ) ≤ 5 ∧ (∃ k : ℕ, (5 : ℚ) = 5 + k * 10) ∧
    (∀ k : ℕ, (3 : ℚ) ≤ 5 + k * 10 → (5 : ℚ) ≤ 5 + k * 10) ∧
    ((3 : ℚ) ≤ 5 → (5 : ℚ) = 5) ∧
    (⟨0, 0, 0, 0⟩ : PowerRecord) = (fun _ : ℚ => (⟨0, 0, 0, 0⟩ : PowerRecord)) 5 :=
  c6_wake_time (fun _ : ℚ => (⟨0, 0, 0, 0⟩ : PowerRecord)) 5 3 10 1 5
    ⟨0, 0, 0, 0⟩ (by norm_num)
    (by norm_num [get_next_power_record, gnpr_loop])

/-- Claim C10: over any run of turn_off_when_idle, observed to any
depth, the only command ever issued is set_switch(False): either no
command is issued, or exactly one off command is issued and the run
completes with it. -/
theorem c10_single_off_command (switch_is_on : Bool)
    (fetches : ℕ → PowerRecord) (idle_threshold allowed_latency : ℚ)
    (cycle_detection_precision : ℤ) (fuel_boot fuel_loop : ℕ) :
    (turn_off_when_idle switch_is_on fetches idle_threshold allowed_latency
        cycle_detection_precision fuel_boot fuel_loop).commands = [] ∨
    ((turn_off_when_idle switch_is_on fetches idle_threshold allowed_latency
        cycle_detection_precision fuel_boot fuel_loop).commands =
        [Command.setSwitch false] ∧
      (turn_off_when_idle switch_is_on fetches idle_threshold allowed_latency
        cycle_detection_precision fuel_boot fuel_loop).completed = true) := by
  rcases switch_is_on with _ | _
  · left
    rfl
  · rcases hb : get_reliable_power_record fetches fuel_boot with ⟨n, _ | r⟩
    · left
      simp [turn_off_when_idle, hb]
    · rcases hg : (turn_off_if_idle idle_threshold r 0.5).1 with _ | _
      · right
        simp only [turn_off_when_idle, hb, if_true]
        rw [hg]
        simp only [Bool.false_eq_true, if_false]
        exact ⟨turn_off_if_idle_snd_of_fst_false _ _ _ hg, by trivial⟩
      · simp only [turn_off_when_idle, hb, if_true]
        rw [hg]
        simp only [if_true]
        rw [turn_off_if_idle_snd_of_fst_true _ _ _ hg]
        simp only [List.nil_append]
        rcases tow_loop_commands fetches idle_threshold allowed_latency
          (precision_is_low cycle_detection_precision) fuel_loop n
          r.record_time initState with ⟨hcm, _⟩ | ⟨hcm, hoff⟩
        · left
          exact hcm
        · right
          exact ⟨hcm, hoff⟩

end Fritzbox
